import Mathlib

/-!
Verification of the Bluetooth direction-finding simulation
(`direction-finding-sim.ipynb`): a shallow embedding of the array response
model, the sample covariance estimator, the MUSIC spectrum estimator and the
peak extraction step, together with theorems settling the specification
claims C1 to C10.

Modelling conventions:
* floating-point numerics are embedded over the exact reals and complexes;
* the pseudo-random draws of `np.random.randn` are an explicit noise input
  (for the reproducibility claim, a position in an explicit normal stream);
* the outputs of the external library routines `np.linalg.eig` and
  `scipy.signal.find_peaks` are modelled as explicit inputs, respectively as
  a definition following their documented behaviour.
-/

open scoped BigOperators ComplexOrder
open Matrix

/-- Speed of light in m/s, the value of `scipy.constants.speed_of_light`. -/
def speed_of_light : ℝ := 299792458

/-- Source constant `FREQUENCY_DEVIATION = 250e3`. -/
def FREQUENCY_DEVIATION : ℝ := 250000

/-- Source constant `BLUETOOTH_FREQUENCY = 2450e6`, center frequency of the
Bluetooth channel in Hz. -/
def BLUETOOTH_FREQUENCY : ℝ := 2450000000

/-- Source constant `CTE_FREQUENCY = BLUETOOTH_FREQUENCY + FREQUENCY_DEVIATION`. -/
def CTE_FREQUENCY : ℝ := BLUETOOTH_FREQUENCY + FREQUENCY_DEVIATION

/-- Source constant `CTE_WAVELENGTH = speed_of_light / CTE_FREQUENCY`,
the Bluetooth wavelength in m. -/
noncomputable def CTE_WAVELENGTH : ℝ := speed_of_light / CTE_FREQUENCY

/-- Source constant `CTE_TIME = 160e-6`, the Constant Tone Extension time. -/
noncomputable def CTE_TIME : ℝ := 160e-6

/-- Source constant `CTE_SAMPLES = 50`. -/
def CTE_SAMPLES : ℕ := 50

/-- Source constant `NUM_SOURCES = 1`. -/
def NUM_SOURCES : ℕ := 1

/-- Source constant `NUM_ANGLES_TO_SEARCH = 360`. -/
def NUM_ANGLES_TO_SEARCH : ℕ := 360

/-- Source constant `MAX_SEARCH_ANGLE = 90`. -/
def MAX_SEARCH_ANGLE : ℝ := 90

/-- Embedding of `np.deg2rad`: degrees to radians. -/
noncomputable def deg2rad (x : ℝ) : ℝ := x * (Real.pi / 180)

/-- Embedding of `response_vec`: the expected antenna array response column
vector of IQ values, not accounting for noise.  Element `k` is
`exp(2j * pi * (k * antenna_spacing) * sin(deg2rad incident_angle) / CTE_WAVELENGTH)`,
the `k`-th entry of `np.exp(2j * np.pi * antennas * np.sin(np.deg2rad(incident_angle)) / CTE_WAVELENGTH)`
with `antennas = np.arange(0, num_antennas) * antenna_spacing`. -/
noncomputable def response_vec (num_antennas : ℕ) (incident_angle : ℝ)
    (antenna_spacing : ℝ) : Fin num_antennas → ℂ :=
  fun k =>
    Complex.exp (2 * Complex.I * Real.pi * ((k : ℝ) * antenna_spacing) *
      Real.sin (deg2rad incident_angle) / CTE_WAVELENGTH)

/-- The array response exactly as claim C6 words it: element `k` equals
`exp(i * 2π * k * spacing * sin(radians(incident_angle_degrees)) / wavelength)`
with `wavelength = propagation_speed / frequency`. -/
noncomputable def response_vec_spec (num_antennas : ℕ) (incident_angle : ℝ)
    (antenna_spacing : ℝ) : Fin num_antennas → ℂ :=
  fun k =>
    Complex.exp (Complex.I * (2 * Real.pi * ((k : ℝ) * antenna_spacing) *
      Real.sin (incident_angle * (Real.pi / 180)) / (speed_of_light / CTE_FREQUENCY)))

/-- C6: for every antenna_count ≥ 2, incident angle in [-90, 90] degrees,
spacing > 0, `response_vec` returns the sequence whose element at index `k`
equals `exp(i · 2π · k · spacing · sin(radians(incident_angle)) / wavelength)`
with `wavelength = propagation_speed / frequency`; in particular the boundary
angles ±90° are included in the hypotheses, where the function is total and
given by the same formula. -/
theorem C6_response_vec_formula (num_antennas : ℕ)
    (incident_angle antenna_spacing : ℝ) (hn : 2 ≤ num_antennas)
    (hlo : -90 ≤ incident_angle) (hhi : incident_angle ≤ 90)
    (hs : 0 < antenna_spacing) :
    ∀ k : Fin num_antennas,
      response_vec num_antennas incident_angle antenna_spacing k =
        response_vec_spec num_antennas incident_angle antenna_spacing k := by
  intro k
  unfold response_vec response_vec_spec deg2rad CTE_WAVELENGTH
  congr 1
  push_cast
  ring

/-- Witness for C6 at the boundary angle 90° with 2 antennas and spacing 1. -/
theorem C6_response_vec_formula_witness :
    (2 ≤ 2 ∧ (-90 : ℝ) ≤ 90 ∧ (90 : ℝ) ≤ (90 : ℝ) ∧ (0 : ℝ) < 1) ∧
      response_vec 2 90 1 ⟨1, by norm_num⟩ =
        response_vec_spec 2 90 1 ⟨1, by norm_num⟩ :=
  ⟨⟨by norm_num, by norm_num, by norm_num, by norm_num⟩,
    C6_response_vec_formula 2 90 1 (by norm_num) (by norm_num) (by norm_num)
      (by norm_num) ⟨1, by norm_num⟩⟩

/-- C7: for every valid array geometry (antenna_count ≥ 2, spacing > 0) and
angle in [-90, 90], every element of the steering vector returned by
`response_vec` has magnitude 1 (exactly, in the real-arithmetic model). -/
theorem C7_response_vec_unit_magnitude (num_antennas : ℕ)
    (incident_angle antenna_spacing : ℝ) (hn : 2 ≤ num_antennas)
    (hs : 0 < antenna_spacing)
    (hlo : -90 ≤ incident_angle) (hhi : incident_angle ≤ 90) :
    ∀ k : Fin num_antennas,
      Complex.abs (response_vec num_antennas incident_angle antenna_spacing k) = 1 := by
  intro k
  unfold response_vec
  rw [Complex.abs_exp]
  have h : ((2 * Complex.I * Real.pi * ((k : ℝ) * antenna_spacing) *
      Real.sin (deg2rad incident_angle) / CTE_WAVELENGTH : ℂ)).re = 0 := by
    simp [Complex.div_re, Complex.mul_re, Complex.mul_im]
  rw [h, Real.exp_zero]

/-- Witness for C7 at 2 antennas, incident angle 0, spacing 1, element 0. -/
theorem C7_response_vec_unit_magnitude_witness :
    (2 ≤ 2 ∧ (0 : ℝ) < 1 ∧ (-90 : ℝ) ≤ 0 ∧ (0 : ℝ) ≤ 90) ∧
      Complex.abs (response_vec 2 0 1 ⟨0, by norm_num⟩) = 1 :=
  ⟨⟨by norm_num, by norm_num, by norm_num, by norm_num⟩,
    C7_response_vec_unit_magnitude 2 0 1 (by norm_num) (by norm_num) (by norm_num)
      (by norm_num) ⟨0, by norm_num⟩⟩

/-- C10: element 0 of `response_vec` is exactly 1 for every antenna count ≥ 1,
angle and spacing (the first antenna is the zero-phase reference), and at
incident angle 0° every element equals 1. -/
theorem C10_response_vec_reference_element (num_antennas : ℕ)
    (incident_angle antenna_spacing : ℝ) (h : 1 ≤ num_antennas) :
    response_vec num_antennas incident_angle antenna_spacing ⟨0, h⟩ = 1 ∧
      ∀ k : Fin num_antennas, response_vec num_antennas 0 antenna_spacing k = 1 := by
  constructor
  · unfold response_vec
    norm_num
  · intro k
    unfold response_vec deg2rad
    norm_num

/-- Witness for C10 at 2 antennas, incident angle 5, spacing 3. -/
theorem C10_response_vec_reference_element_witness :
    1 ≤ 2 ∧ response_vec 2 5 3 ⟨0, by norm_num⟩ = 1 ∧
      response_vec 2 0 3 ⟨1, by norm_num⟩ = 1 :=
  ⟨by norm_num,
    (C10_response_vec_reference_element 2 5 3 (by norm_num)).1,
    (C10_response_vec_reference_element 2 0 3 (by norm_num)).2 ⟨1, by norm_num⟩⟩

/-- One synthesized IQ sample as the source actually computes it:
`antenna_response + np.sqrt(0.5 / snr) * np.random.randn(num_antennas)`.
Because `antenna_response` is an `(N, 1)` column (from `reshape((-1, 1))`)
and `np.random.randn(N)` has shape `(N,)`, NumPy broadcasting yields the
`N × N` matrix whose `(i, j)` entry is `steering i + sqrt(0.5 / snr) * noise j`. -/
noncomputable def iq_sample (num_antennas : ℕ) (steering : Fin num_antennas → ℂ)
    (snr : ℝ) (noise : Fin num_antennas → ℝ) :
    Matrix (Fin num_antennas) (Fin num_antennas) ℂ :=
  Matrix.of fun i j => steering i + ((Real.sqrt (0.5 / snr) * noise j : ℝ) : ℂ)

/-- Embedding of `sample_cov`: accumulates `iq_sample_at_t @ iq_sample_at_t.conjugate().T`
over the `CTE_SAMPLES` loop iterations (the loop variable `t` is otherwise
unused) and divides by `CTE_SAMPLES`.  The values drawn by `np.random.randn`
at iteration `t` are the explicit input `noise t`. -/
noncomputable def sample_cov (num_antennas : ℕ) (steering : Fin num_antennas → ℂ)
    (snr : ℝ) (noise : Fin CTE_SAMPLES → Fin num_antennas → ℝ) :
    Matrix (Fin num_antennas) (Fin num_antennas) ℂ :=
  ((CTE_SAMPLES : ℂ))⁻¹ •
    ∑ t : Fin CTE_SAMPLES,
      iq_sample num_antennas steering snr (noise t) *
        (iq_sample num_antennas steering snr (noise t))ᴴ

/-- The observation vector as claim C1 describes it: to each of the `N`
elements of the steering vector, add an independent real-valued Gaussian
perturbation of standard deviation `sqrt(0.5 / snr)`. -/
noncomputable def observation_spec (num_antennas : ℕ) (steering : Fin num_antennas → ℂ)
    (snr : ℝ) (noise : Fin num_antennas → ℝ) : Fin num_antennas → ℂ :=
  fun i => steering i + ((Real.sqrt (0.5 / snr) * noise i : ℝ) : ℂ)

/-- The covariance estimate as claim C1 describes it: the average over the
`CTE_SAMPLES` samples of the outer product of each observation vector with
its own conjugate transpose. -/
noncomputable def sample_cov_spec (num_antennas : ℕ) (steering : Fin num_antennas → ℂ)
    (snr : ℝ) (noise : Fin CTE_SAMPLES → Fin num_antennas → ℝ) :
    Matrix (Fin num_antennas) (Fin num_antennas) ℂ :=
  ((CTE_SAMPLES : ℂ))⁻¹ •
    ∑ t : Fin CTE_SAMPLES,
      Matrix.of fun i j =>
        observation_spec num_antennas steering snr (noise t) i *
          star (observation_spec num_antennas steering snr (noise t) j)

/-- C1 (code bug): at steering vector (1, 1), snr = 0.5 (so the noise scale
`sqrt(0.5 / snr)` is 1) and the noise realization (1, 0) at every one of the
50 samples, the code computes entry (0, 0) of the covariance as 5, while the
per-element observation model stated by the claim gives 4.  The cause is the
NumPy broadcast described at `iq_sample`: the code accumulates the outer
product of an N × N matrix with itself instead of that of one observation
vector. -/
theorem C1_sample_cov_broadcast_failing_input :
    sample_cov 2 (fun _ => 1) 0.5 (fun _ j => if j.val = 0 then 1 else 0)
        ⟨0, by norm_num⟩ ⟨0, by norm_num⟩ = 5 ∧
      sample_cov_spec 2 (fun _ => 1) 0.5 (fun _ j => if j.val = 0 then 1 else 0)
        ⟨0, by norm_num⟩ ⟨0, by norm_num⟩ = 4 := by
  have hσ : Real.sqrt (0.5 / (0.5 : ℝ)) = 1 := by norm_num
  constructor
  · simp only [sample_cov, iq_sample, Matrix.smul_apply, Matrix.sum_apply, Matrix.mul_apply,
      Matrix.conjTranspose_apply, Matrix.of_apply, hσ, Fin.sum_univ_two, Fin.val_zero,
      Fin.val_one, if_true, one_mul]
    norm_num [Finset.sum_const, Finset.card_univ, CTE_SAMPLES, star_add, star_one,
      smul_eq_mul]
  · simp only [sample_cov_spec, observation_spec, Matrix.smul_apply, Matrix.sum_apply,
      Matrix.of_apply, hσ, Fin.val_zero, if_true, one_mul]
    norm_num [Finset.sum_const, Finset.card_univ, CTE_SAMPLES, star_add, star_one,
      smul_eq_mul]

/-- C8: for every steering vector, every snr > 0, and every realization of
the random noise, the matrix returned by `sample_cov` is Hermitian (it equals
its own conjugate transpose exactly, in the real-arithmetic model) and
positive semi-definite.  This holds for the code as written, broadcast
included, because each accumulated term has the form `A * Aᴴ`. -/
theorem C8_sample_cov_hermitian_psd (num_antennas : ℕ)
    (steering : Fin num_antennas → ℂ) (snr : ℝ)
    (noise : Fin CTE_SAMPLES → Fin num_antennas → ℝ) (hsnr : 0 < snr) :
    (sample_cov num_antennas steering snr noise).IsHermitian ∧
      (sample_cov num_antennas steering snr noise).PosSemidef := by
  have hsum : (∑ t : Fin CTE_SAMPLES,
      iq_sample num_antennas steering snr (noise t) *
        (iq_sample num_antennas steering snr (noise t))ᴴ).PosSemidef :=
    Finset.sum_induction _ _ (fun a b ha hb => ha.add hb) Matrix.PosSemidef.zero
      (fun t _ => Matrix.posSemidef_self_mul_conjTranspose _)
  have hc : (0 : ℂ) ≤ ((CTE_SAMPLES : ℂ))⁻¹ := by
    rw [show ((CTE_SAMPLES : ℂ)) = (((CTE_SAMPLES : ℝ)) : ℂ) by push_cast; rfl,
      ← Complex.ofReal_inv]
    exact Complex.zero_le_real.mpr (by positivity)
  have hherm : (sample_cov num_antennas steering snr noise).IsHermitian := by
    have h1 := hsum.1
    show (sample_cov num_antennas steering snr noise)ᴴ = _
    unfold sample_cov
    rw [Matrix.conjTranspose_smul, h1]
    congr 1
    simp
  refine ⟨hherm, hherm, ?_⟩
  intro x
  unfold sample_cov
  rw [Matrix.smul_mulVec_assoc, Matrix.dotProduct_smul, smul_eq_mul]
  exact mul_nonneg hc (hsum.2 x)

/-- Witness for C8 with one antenna, unit steering vector, snr 1, zero noise. -/
theorem C8_sample_cov_hermitian_psd_witness :
    (0 : ℝ) < 1 ∧ (sample_cov 1 (fun _ => 1) 1 (fun _ _ => 0)).PosSemidef :=
  ⟨by norm_num, (C8_sample_cov_hermitian_psd 1 (fun _ => 1) 1 (fun _ _ => 0) (by norm_num)).2⟩

/-- `sample_cov` as invoked against the global NumPy generator, which
`np.random.seed(0)` seeds once at module load.  The generator is modelled as
a fixed stream of standard-normal draws plus a current position: the call at
iteration `t` of the loop consumes the next `num_antennas` stream values.
Returns the covariance matrix together with the advanced stream position. -/
noncomputable def sample_cov_run (num_antennas : ℕ) (steering : Fin num_antennas → ℂ)
    (snr : ℝ) (stream : ℕ → ℝ) (pos : ℕ) :
    Matrix (Fin num_antennas) (Fin num_antennas) ℂ × ℕ :=
  (sample_cov num_antennas steering snr
      (fun t j => stream (pos + t.val * num_antennas + j.val)),
    pos + CTE_SAMPLES * num_antennas)

/-- C5 (counterexample): with the seed fixed — i.e. one fixed stream of
normal draws — the covariance is NOT a deterministic function of
(steering, snr) on every invocation.  The module seeds the global NumPy
state once; every call to `sample_cov` consumes the stream, so a second
invocation starts at a different position.  Concretely, with one antenna,
steering (1), snr 0.5, and the seed-0 stream replaced by one that is 0
before position 50 and 1 from then on, the first invocation returns the
1×1 matrix (1) and the immediately following invocation returns (4). -/
theorem C5_sample_cov_not_invocation_deterministic :
    (sample_cov_run 1 (fun _ => 1) 0.5 (fun i => if i < 50 then 0 else 1) 0).1 ≠
      (sample_cov_run 1 (fun _ => 1) 0.5 (fun i => if i < 50 then 0 else 1) 50).1 := by
  have hσ : Real.sqrt (0.5 / (0.5 : ℝ)) = 1 := by norm_num
  have hA : (sample_cov_run 1 (fun _ => 1) 0.5 (fun i => if i < 50 then 0 else 1) 0).1
      ⟨0, one_pos⟩ ⟨0, one_pos⟩ = 1 := by
    have hnoise : (fun (t : Fin CTE_SAMPLES) (j : Fin 1) =>
        (fun i => if i < 50 then (0 : ℝ) else 1) (0 + t.val * 1 + j.val)) =
        fun _ _ => 0 := by
      funext t j
      have ht := t.isLt
      have hj := j.isLt
      simp only [CTE_SAMPLES] at ht
      have hlt : 0 + t.val * 1 + j.val < 50 := by omega
      simp [hlt, ht]
    show sample_cov 1 (fun _ => 1) 0.5
        (fun t j => (fun i => if i < 50 then (0 : ℝ) else 1) (0 + t.val * 1 + j.val))
        ⟨0, one_pos⟩ ⟨0, one_pos⟩ = 1
    rw [hnoise]
    simp only [sample_cov, iq_sample, Matrix.smul_apply, Matrix.sum_apply, Matrix.mul_apply,
      Matrix.conjTranspose_apply, Matrix.of_apply, hσ, Fin.sum_univ_one, one_mul]
    norm_num [Finset.sum_const, Finset.card_univ, CTE_SAMPLES, star_add, star_one,
      smul_eq_mul]
  have hB : (sample_cov_run 1 (fun _ => 1) 0.5 (fun i => if i < 50 then 0 else 1) 50).1
      ⟨0, one_pos⟩ ⟨0, one_pos⟩ = 4 := by
    have hnoise : (fun (t : Fin CTE_SAMPLES) (j : Fin 1) =>
        (fun i => if i < 50 then (0 : ℝ) else 1) (50 + t.val * 1 + j.val)) =
        fun _ _ => 1 := by
      funext t j
      have hge : ¬ (50 + t.val * 1 + j.val < 50) := by omega
      simp [hge]
    show sample_cov 1 (fun _ => 1) 0.5
        (fun t j => (fun i => if i < 50 then (0 : ℝ) else 1) (50 + t.val * 1 + j.val))
        ⟨0, one_pos⟩ ⟨0, one_pos⟩ = 4
    rw [hnoise]
    simp only [sample_cov, iq_sample, Matrix.smul_apply, Matrix.sum_apply, Matrix.mul_apply,
      Matrix.conjTranspose_apply, Matrix.of_apply, hσ, Fin.sum_univ_one, one_mul]
    norm_num [Finset.sum_const, Finset.card_univ, CTE_SAMPLES, star_add, star_one,
      smul_eq_mul]
  intro h
  have h00 := congrFun (congrFun h ⟨0, one_pos⟩) ⟨0, one_pos⟩
  rw [hA, hB] at h00
  norm_num at h00

/-- C5 amended: with the stream position (the global generator state) taken
into account, the covariance pipeline is deterministic and consumes exactly
`CTE_SAMPLES * num_antennas` stream values: two invocations from the same
position whose streams agree on the consumed segment produce identical
covariance matrices and identical final positions.  This is the
reproducibility the code provides: rerunning from a fresh `np.random.seed(0)`
regenerates the same stream, while successive invocations in one session
start at different positions and generally differ. -/
theorem C5_sample_cov_stream_deterministic (num_antennas : ℕ)
    (steering : Fin num_antennas → ℂ) (snr : ℝ) (stream stream2 : ℕ → ℝ) (pos : ℕ)
    (h : ∀ i, pos ≤ i → i < pos + CTE_SAMPLES * num_antennas → stream i = stream2 i) :
    sample_cov_run num_antennas steering snr stream pos =
      sample_cov_run num_antennas steering snr stream2 pos := by
  have hn : (fun (t : Fin CTE_SAMPLES) (j : Fin num_antennas) =>
      stream (pos + t.val * num_antennas + j.val)) =
      fun t j => stream2 (pos + t.val * num_antennas + j.val) := by
    funext t j
    apply h
    · omega
    · have ht := t.isLt
      have hj := j.isLt
      have hstep : t.val * num_antennas + j.val < CTE_SAMPLES * num_antennas := by
        calc t.val * num_antennas + j.val < t.val * num_antennas + num_antennas := by omega
          _ = (t.val + 1) * num_antennas := by ring
          _ ≤ CTE_SAMPLES * num_antennas := Nat.mul_le_mul_right _ ht
      omega
  simp only [sample_cov_run]
  rw [hn]

/-- Witness for C5 amended: two streams that agree on the 50 consumed values
(positions 0 to 49, one antenna) yield identical results. -/
theorem C5_sample_cov_stream_deterministic_witness :
    (∀ i : ℕ, 0 ≤ i → i < 0 + CTE_SAMPLES * 1 →
      (fun _ : ℕ => (0 : ℝ)) i = (fun i : ℕ => if i < 100 then (0 : ℝ) else 1) i) ∧
      sample_cov_run 1 (fun _ => 1) 1 (fun _ => 0) 0 =
        sample_cov_run 1 (fun _ => 1) 1 (fun i => if i < 100 then 0 else 1) 0 := by
  have h : ∀ i : ℕ, 0 ≤ i → i < 0 + CTE_SAMPLES * 1 →
      (fun _ : ℕ => (0 : ℝ)) i = (fun i : ℕ => if i < 100 then (0 : ℝ) else 1) i := by
    intro i h0 hlt
    simp only [CTE_SAMPLES] at hlt
    have : i < 100 := by omega
    simp [this]
  exact ⟨h, C5_sample_cov_stream_deterministic 1 (fun _ => 1) 1 (fun _ => 0)
    (fun i => if i < 100 then 0 else 1) 0 h⟩

/-- The noise-subspace eigenvector matrix as the source selects it:
`non_noise_cov_eigvecs = cov_eigvecs[:, NUM_SOURCES:num_antennas]`, i.e.
columns `NUM_SOURCES` to `num_antennas - 1` of the eigenvector matrix in
exactly the order returned by `np.linalg.eig`; no sorting by eigenvalue is
performed anywhere in `music`. -/
def non_noise_cov_eigvecs (num_antennas : ℕ)
    (cov_eigvecs : Matrix (Fin num_antennas) (Fin num_antennas) ℂ) :
    Matrix (Fin num_antennas) (Fin (num_antennas - NUM_SOURCES)) ℂ :=
  Matrix.of fun i j => cov_eigvecs i ⟨NUM_SOURCES + j.val, by
    have hj := j.isLt
    simp only [NUM_SOURCES] at hj ⊢
    omega⟩

/-- Embedding of
`search_angles = np.linspace(-MAX_SEARCH_ANGLE, MAX_SEARCH_ANGLE, NUM_ANGLES_TO_SEARCH)`:
`np.linspace` with the default endpoint=True yields
`start + i * (stop - start) / (num - 1)`. -/
noncomputable def search_angles : Fin NUM_ANGLES_TO_SEARCH → ℝ :=
  fun i => -MAX_SEARCH_ANGLE +
    (i : ℝ) * (MAX_SEARCH_ANGLE - -MAX_SEARCH_ANGLE) / ((NUM_ANGLES_TO_SEARCH : ℝ) - 1)

/-- The MUSIC pseudo-power denominator at a test angle, the scalar
`steering.conjugate().T @ non_noise_cov_eigvecs @ non_noise_cov_eigvecs.conjugate().T @ steering`
with `steering = response_vec(num_antennas, angle, antenna_spacing)`. -/
noncomputable def music_denom (num_antennas : ℕ)
    (cov_eigvecs : Matrix (Fin num_antennas) (Fin num_antennas) ℂ)
    (antenna_spacing angle : ℝ) : ℂ :=
  star (response_vec num_antennas angle antenna_spacing) ⬝ᵥ
    ((non_noise_cov_eigvecs num_antennas cov_eigvecs *
        (non_noise_cov_eigvecs num_antennas cov_eigvecs)ᴴ) *ᵥ
      response_vec num_antennas angle antenna_spacing)

/-- Embedding of `music`.  The call `np.linalg.eig(covariance)` is modelled
by the explicit input `cov_eigvecs`, the eigenvector matrix in the routine's
output order (the eigenvalues are discarded by the code: `_, cov_eigvecs =
np.linalg.eig(covariance)`).  Returns the angles searched together with
their corresponding signal power `1 / music_denom`. -/
noncomputable def music (num_antennas : ℕ)
    (covariance : Matrix (Fin num_antennas) (Fin num_antennas) ℂ)
    (cov_eigvecs : Matrix (Fin num_antennas) (Fin num_antennas) ℂ)
    (antenna_spacing : ℝ) :
    (Fin NUM_ANGLES_TO_SEARCH → ℝ) × (Fin NUM_ANGLES_TO_SEARCH → ℂ) :=
  (search_angles,
    fun idx => 1 / music_denom num_antennas cov_eigvecs antenna_spacing (search_angles idx))

/-- `(eigvals, eigvecs)` is a valid eigendecomposition of `covariance`:
column `j` of `eigvecs` is an eigenvector for eigenvalue `eigvals j`.
`np.linalg.eig` guarantees no particular column order. -/
def is_eigendecomposition (num_antennas : ℕ)
    (covariance : Matrix (Fin num_antennas) (Fin num_antennas) ℂ)
    (eigvals : Fin num_antennas → ℂ)
    (eigvecs : Matrix (Fin num_antennas) (Fin num_antennas) ℂ) : Prop :=
  ∀ j, covariance *ᵥ (fun i => eigvecs i j) = fun i => eigvals j * eigvecs i j

/-- The partition property claim C2 asserts: every eigenvalue attached to a
column the code places in the noise subspace (index ≥ `NUM_SOURCES`, the
columns `non_noise_cov_eigvecs` selects) is at most every eigenvalue
attached to a signal-subspace column (index < `NUM_SOURCES`).  Eigenvalues
of a Hermitian matrix are real; they are compared by real part. -/
def noise_partition_is_smallest (num_antennas : ℕ)
    (eigvals : Fin num_antennas → ℂ) : Prop :=
  ∀ j : Fin num_antennas, NUM_SOURCES ≤ j.val →
    ∀ j2 : Fin num_antennas, j2.val < NUM_SOURCES →
      (eigvals j).re ≤ (eigvals j2).re

/-- C2 (counterexample): the claim fails on the code.  The diagonal matrix
diag(1, 2) is Hermitian; the identity matrix together with eigenvalues
(1, 2) is a valid, orthonormal eigendecomposition of it — and it is the one
`np.linalg.eig` actually returns for a diagonal input (eigenvalues in
diagonal order).  `music` takes columns `NUM_SOURCES..N-1` without sorting,
so the single noise-subspace column is the eigenvector of the LARGEST
eigenvalue (2), not the smallest (1): `noise_partition_is_smallest` fails. -/
theorem C2_music_no_sorting_counterexample :
    ((Matrix.of ![![(1 : ℂ), 0], ![0, 2]]).IsHermitian ∧
      is_eigendecomposition 2 (Matrix.of ![![(1 : ℂ), 0], ![0, 2]]) ![1, 2] 1 ∧
      (1 : Matrix (Fin 2) (Fin 2) ℂ)ᴴ * 1 = 1) ∧
      ¬ noise_partition_is_smallest 2 ![1, 2] := by
  refine ⟨⟨?_, ?_, ?_⟩, ?_⟩
  · show (Matrix.of ![![(1 : ℂ), 0], ![0, 2]])ᴴ = _
    ext i j
    fin_cases i <;> fin_cases j <;>
      simp [Matrix.conjTranspose_apply]
  · intro j
    funext i
    fin_cases j <;> fin_cases i <;>
      simp [Matrix.mulVec, Matrix.dotProduct, Fin.sum_univ_two, Matrix.one_apply]
  · simp
  · intro hmono
    have h := hmono ⟨1, by norm_num⟩ (by simp [NUM_SOURCES]) ⟨0, by norm_num⟩
      (by simp [NUM_SOURCES])
    simp at h

/-- C2 amended: `music` performs no sort; its noise subspace is columns
`NUM_SOURCES` to `N-1` of the eigenvector matrix in the decomposition
routine's output order, so it consists of the eigenvectors of the smallest
eigenvalues exactly when the routine happens to return the eigenvalues in
descending order (which `np.linalg.eig` does not guarantee). -/
theorem C2_music_partition_descending_order (num_antennas : ℕ)
    (eigvals : Fin num_antennas → ℂ)
    (eigvecs : Matrix (Fin num_antennas) (Fin num_antennas) ℂ)
    (hdesc : ∀ a b : Fin num_antennas, a ≤ b → (eigvals b).re ≤ (eigvals a).re) :
    noise_partition_is_smallest num_antennas eigvals ∧
      ∀ (i : Fin num_antennas) (j : Fin (num_antennas - NUM_SOURCES))
        (h : NUM_SOURCES + j.val < num_antennas),
        non_noise_cov_eigvecs num_antennas eigvecs i j =
          eigvecs i ⟨NUM_SOURCES + j.val, h⟩ := by
  constructor
  · intro j hj j2 hj2
    exact hdesc j2 j (by rw [Fin.le_def]; omega)
  · intro i j h
    rfl

/-- Witness for C2 amended: descending eigenvalues (2, 1) at 2 antennas. -/
theorem C2_music_partition_descending_order_witness :
    (∀ a b : Fin 2, a ≤ b →
      ((![2, 1] : Fin 2 → ℂ) b).re ≤ ((![2, 1] : Fin 2 → ℂ) a).re) ∧
      noise_partition_is_smallest 2 ![2, 1] := by
  have hdesc : ∀ a b : Fin 2, a ≤ b →
      ((![2, 1] : Fin 2 → ℂ) b).re ≤ ((![2, 1] : Fin 2 → ℂ) a).re := by
    intro a b hab
    fin_cases a <;> fin_cases b <;> simp_all
  exact ⟨hdesc, (C2_music_partition_descending_order 2 ![2, 1] 1 hdesc).1⟩

/-- C4 (counterexample): an invalid configuration is not rejected before
computation.  With antenna_count = 1 — violating both `antenna_count ≥ 2`
and `num_sources < antenna_count` — the pipeline runs to completion: the
noise subspace is empty, the MUSIC pseudo-power denominator evaluates to 0
at the first search angle, and the spectrum entry is the fully evaluated
`1 / 0` (an IEEE infinity with a runtime warning in NumPy, 0 in this
embedding of division) instead of a synchronously surfaced configuration
error.  No validation or error path exists anywhere in the source. -/
theorem C4_invalid_config_not_rejected :
    music_denom 1 1 0.06
        (search_angles ⟨0, by norm_num [NUM_ANGLES_TO_SEARCH]⟩) = 0 ∧
      (music 1 (Matrix.of ![![(1 : ℂ)]]) 1 0.06).2
        ⟨0, by norm_num [NUM_ANGLES_TO_SEARCH]⟩ = 0 := by
  have hzero : ∀ angle : ℝ, music_denom 1 1 0.06 angle = 0 := by
    intro angle
    have hE : (non_noise_cov_eigvecs 1 (1 : Matrix (Fin 1) (Fin 1) ℂ) *
        (non_noise_cov_eigvecs 1 (1 : Matrix (Fin 1) (Fin 1) ℂ))ᴴ) = 0 := by
      ext i j
      simp [Matrix.mul_apply, NUM_SOURCES]
    unfold music_denom
    rw [hE]
    simp
  refine ⟨hzero _, ?_⟩
  show (1 : ℂ) / music_denom 1 1 0.06 _ = 0
  rw [hzero]
  simp

/-- C4 amended: the core performs no input validation and has no error
channel; invalid configurations flow through.  For every 1×1 covariance
(`num_sources = NUM_SOURCES = 1 ≥ antenna_count`), every eigenvector input,
spacing and angle, the noise subspace of `music` is empty, the pseudo-power
denominator is identically 0 over the whole search grid, the full
360-point grid is still produced, and every spectrum value is the evaluated
division `1 / 0` (0 in this embedding, an IEEE infinity in NumPy) — a
degenerate value, not a rejection. -/
theorem C4_music_total_on_invalid_config
    (cov cov_eigvecs : Matrix (Fin 1) (Fin 1) ℂ) (antenna_spacing angle : ℝ)
    (idx : Fin NUM_ANGLES_TO_SEARCH) :
    music_denom 1 cov_eigvecs antenna_spacing angle = 0 ∧
      (music 1 cov cov_eigvecs antenna_spacing).1 = search_angles ∧
      (music 1 cov cov_eigvecs antenna_spacing).2 idx = 0 := by
  have hE : (non_noise_cov_eigvecs 1 cov_eigvecs *
      (non_noise_cov_eigvecs 1 cov_eigvecs)ᴴ) = 0 := by
    ext i j
    simp [Matrix.mul_apply, NUM_SOURCES]
  have hzero : ∀ a : ℝ, music_denom 1 cov_eigvecs antenna_spacing a = 0 := by
    intro a
    unfold music_denom
    rw [hE]
    simp
  refine ⟨hzero _, rfl, ?_⟩
  show (1 : ℂ) / music_denom 1 cov_eigvecs antenna_spacing _ = 0
  rw [hzero]
  simp

/-- C9: `music` produces a search grid of exactly `NUM_ANGLES_TO_SEARCH = 360`
angles (a configuration constant, independent of the covariance input),
evenly spaced — constant step 180/359 — from -90° to +90° inclusive, and a
pseudo-spectrum of the same length in one-to-one positional correspondence:
entry `idx` of the spectrum is the pseudo-power `1 / music_denom` evaluated
at grid angle `idx`. -/
theorem C9_music_grid_and_spectrum :
    NUM_ANGLES_TO_SEARCH = 360 ∧
      search_angles ⟨0, by norm_num [NUM_ANGLES_TO_SEARCH]⟩ = -90 ∧
      search_angles ⟨359, by norm_num [NUM_ANGLES_TO_SEARCH]⟩ = 90 ∧
      (∀ (i : ℕ) (h : i + 1 < NUM_ANGLES_TO_SEARCH),
        search_angles ⟨i + 1, h⟩ - search_angles ⟨i, Nat.lt_of_succ_lt h⟩ = 180 / 359) ∧
      (∀ (num_antennas : ℕ)
        (cov cov_eigvecs : Matrix (Fin num_antennas) (Fin num_antennas) ℂ)
        (antenna_spacing : ℝ) (idx : Fin NUM_ANGLES_TO_SEARCH),
        (music num_antennas cov cov_eigvecs antenna_spacing).1 = search_angles ∧
        (music num_antennas cov cov_eigvecs antenna_spacing).2 idx =
          1 / music_denom num_antennas cov_eigvecs antenna_spacing (search_angles idx)) := by
  refine ⟨rfl, ?_, ?_, ?_, ?_⟩
  · norm_num [search_angles, MAX_SEARCH_ANGLE, NUM_ANGLES_TO_SEARCH]
  · norm_num [search_angles, MAX_SEARCH_ANGLE, NUM_ANGLES_TO_SEARCH]
  · intro i h
    simp only [search_angles, MAX_SEARCH_ANGLE, NUM_ANGLES_TO_SEARCH]
    push_cast
    ring
  · intro num_antennas cov cov_eigvecs antenna_spacing idx
    exact ⟨rfl, rfl⟩

/-- Witness for C9: the hypothesis of the even-spacing conjunct at i = 0. -/
theorem C9_music_grid_and_spectrum_witness :
    0 + 1 < NUM_ANGLES_TO_SEARCH ∧
      search_angles ⟨0 + 1, by norm_num [NUM_ANGLES_TO_SEARCH]⟩ -
        search_angles ⟨0, by norm_num [NUM_ANGLES_TO_SEARCH]⟩ = 180 / 359 :=
  ⟨by norm_num [NUM_ANGLES_TO_SEARCH],
    C9_music_grid_and_spectrum.2.2.2.1 0 (by norm_num [NUM_ANGLES_TO_SEARCH])⟩

/-- The local-maximum-with-height predicate of the library call
`scipy.signal.find_peaks(x, height)` as the spec describes it: an interior
point strictly greater than both immediate neighbours (boundary points are
never candidates) whose value is at least `height` — scipy's `height`
argument is an inclusive lower bound on the peak value.  Flat plateaus,
which scipy resolves to their midpoints, do not occur for generic spectra
and are not modelled.  The default value fed to `getD` is only read at
out-of-range indices, which the bounds exclude. -/
def is_peak {α : Type} [LinearOrder α] (x : List α) (height : α) (i : ℕ) : Prop :=
  0 < i ∧ i + 1 < x.length ∧
    x.getD (i - 1) height < x.getD i height ∧
    x.getD (i + 1) height < x.getD i height ∧
    height ≤ x.getD i height

instance is_peak_decidable {α : Type} [LinearOrder α] (x : List α) (height : α)
    (i : ℕ) : Decidable (is_peak x height i) := by
  unfold is_peak
  infer_instance

/-- Embedding of `peaks, _ = find_peaks(signal_powers, height=height)`: the
indices of the qualifying local maxima, in increasing index order. -/
def find_peaks {α : Type} [LinearOrder α] (x : List α) (height : α) : List ℕ :=
  (List.range x.length).filter fun i => decide (is_peak x height i)

/-- Embedding of the peak-extraction fragment of `draw_pseudo_spectrum`:
`search_angles[peak]` for each `peak` in `find_peaks(signal_powers, height=1)`
(the code uses the fixed height 1, passed here as the `height` argument). -/
def estimated_angles {α β : Type} [LinearOrder α] (grid : List β) (x : List α)
    (height : α) : List β :=
  (find_peaks x height).filterMap fun i => grid[i]?

/-- The decibel conversion named by claim C3: `20 * log10(power)`. -/
noncomputable def to_db (p : ℝ) : ℝ := 20 * Real.logb 10 p

/-- The angle extractor exactly as claim C3 words it: first convert each
power to decibels, then report the grid angles at interior points strictly
greater than both immediate neighbours whose decibel value strictly exceeds
`db_threshold` (1 dB in the reference configuration). -/
noncomputable def estimated_angles_claim (grid : List ℝ) (x : List ℝ)
    (db_threshold : ℝ) : List ℝ :=
  ((List.range x.length).filter fun i =>
      decide (0 < i ∧ i + 1 < x.length ∧
        to_db (x.getD (i - 1) 1) < to_db (x.getD i 1) ∧
        to_db (x.getD (i + 1) 1) < to_db (x.getD i 1) ∧
        db_threshold < to_db (x.getD i 1))).filterMap fun i => grid[i]?

/-- C3 (counterexample): the extractor does not threshold in decibels.  On
the spectrum (1/2, 1, 1/2) with grid (10, 20, 30), the interior point has
linear power 1, which passes the code's `find_peaks(..., height=1)` filter
(inclusive, linear), so the code reports the angle 20; but its decibel value
is `20*log10(1) = 0`, which does not exceed the claimed 1 dB threshold, so
the claimed extractor reports nothing. -/
theorem C3_extractor_db_threshold_counterexample :
    estimated_angles ([10, 20, 30] : List ℝ) ([1/2, 1, 1/2] : List ℝ) 1 = [20] ∧
      estimated_angles_claim [10, 20, 30] [1/2, 1, 1/2] 1 = [] ∧
      estimated_angles ([10, 20, 30] : List ℝ) ([1/2, 1, 1/2] : List ℝ) 1 ≠
        estimated_angles_claim [10, 20, 30] [1/2, 1, 1/2] 1 := by
  have h1 : estimated_angles ([10, 20, 30] : List ℝ) ([1/2, 1, 1/2] : List ℝ) 1 = [20] := by
    have hlen : ([1/2, 1, 1/2] : List ℝ).length = 3 := rfl
    simp only [estimated_angles, find_peaks, hlen]
    rw [show List.range 3 = [0, 1, 2] from rfl]
    norm_num [is_peak, List.filter, List.getD, List.filterMap_cons,
      List.getElem?_cons_succ, List.getElem?_cons_zero]
  have h2 : estimated_angles_claim [10, 20, 30] [1/2, 1, 1/2] 1 = [] := by
    have hlen : ([1/2, 1, 1/2] : List ℝ).length = 3 := rfl
    simp only [estimated_angles_claim, hlen]
    rw [show List.range 3 = [0, 1, 2] from rfl]
    norm_num [List.filter, List.getD, to_db, Real.logb_one]
  refine ⟨h1, h2, ?_⟩
  rw [h1, h2]
  simp

/-- C3 amended: peak extraction operates on the linear power values — the
decibel conversion `20*log10` is applied only for plotting.  For every grid
and spectrum, the extractor reports exactly the grid angles at interior
points strictly greater than both immediate neighbours whose linear power is
at least 1 (scipy's inclusive `height=1` filter; in decibel terms ≥ 0 dB,
not > 1 dB), and, when the grid is strictly ascending, the reported angles
are in ascending order. -/
theorem C3_extractor_linear_characterization (grid : List ℝ) (x : List ℝ)
    (hgrid : grid.Sorted (· < ·)) :
    (∀ a : ℝ, a ∈ estimated_angles grid x 1 ↔
      ∃ i : ℕ, is_peak x 1 i ∧ grid[i]? = some a) ∧
      (estimated_angles grid x 1).Sorted (· < ·) := by
  constructor
  · intro a
    simp only [estimated_angles, find_peaks, List.mem_filterMap, List.mem_filter,
      List.mem_range, decide_eq_true_eq]
    constructor
    · rintro ⟨i, ⟨hi, hp⟩, hg⟩
      exact ⟨i, hp, hg⟩
    · rintro ⟨i, hp, hg⟩
      refine ⟨i, ⟨?_, hp⟩, hg⟩
      have := hp.2.1
      omega
  · have h1 : (((List.range x.length).filter
        fun i => decide (is_peak x (1 : ℝ) i))).Pairwise (· < ·) :=
      (List.pairwise_lt_range _).filter _
    refine h1.filterMap _ ?_
    intro i j hij b hb b' hb'
    rw [Option.mem_def, List.getElem?_eq_some_iff] at hb hb'
    obtain ⟨hi, rfl⟩ := hb
    obtain ⟨hj, rfl⟩ := hb'
    exact List.pairwise_iff_getElem.mp hgrid i j hi hj hij

/-- Witness for C3 amended on the ascending grid (10, 20, 30) and the
spectrum (1/2, 1, 1/2). -/
theorem C3_extractor_linear_characterization_witness :
    ([10, 20, 30] : List ℝ).Sorted (· < ·) ∧
      (estimated_angles ([10, 20, 30] : List ℝ) ([1/2, 1, 1/2] : List ℝ) 1).Sorted
        (· < ·) := by
  have hs : ([10, 20, 30] : List ℝ).Sorted (· < ·) := by
    norm_num [List.sorted_cons]
  exact ⟨hs, (C3_extractor_linear_characterization [10, 20, 30] [1/2, 1, 1/2] hs).2⟩
